import Mathlib

/-!
Verification development for the TeleQuip party-game engine
(`core/game_manager.py`, `bot.py`, `models/Game.py`).

The Python code is shallowly embedded:
  * Python dicts become insertion-ordered association lists with the
    operations `List.lookup` (read), `dictSet` (`d[k] = v`),
    `dictSetdefault` (`d.setdefault(k, v)`).
  * Python floats (scores) are modelled as exact rationals `ℚ`.
  * Python sets of canonicalised pairs become duplicate-free lists built
    with `addEdge` (mirroring `set.add`).
  * `random.shuffle` is a permutation of the data; every property proved
    here is invariant under permutation of the shuffled list, and the
    shuffled player order enters the definitions as an explicit list
    parameter, so all permutations are covered by the quantifiers.
  * Telegram side effects (messages, polls) are recorded in an explicit
    `Effect` trace.
-/

namespace TeleQuip

/-- `d[k] = v` on a Python dict: replace the first binding of `k`,
otherwise append (insertion order preserved). -/
def dictSet {α β : Type} [DecidableEq α] : List (α × β) → α → β → List (α × β)
  | [], k, v => [(k, v)]
  | (a, b) :: t, k, v => if a = k then (k, v) :: t else (a, b) :: dictSet t k v

/-- `d.setdefault(k, v)` on a Python dict: insert `(k, v)` only if `k` is
absent. -/
def dictSetdefault {α β : Type} [DecidableEq α] (d : List (α × β)) (k : α) (v : β) :
    List (α × β) :=
  match List.lookup k d with
  | some _ => d
  | none => d ++ [(k, v)]

/-- `d[k] += x` on a Python dict of floats (used after a `setdefault`,
which guarantees the key is present, so the `getD` default is inert). -/
def dictAdd [DecidableEq α] (d : List (α × ℚ)) (k : α) (x : ℚ) : List (α × ℚ) :=
  dictSet d k (((List.lookup k d).getD 0) + x)

/-- `(a, b) if a < b else (b, a)` — edge canonicalisation in
`_build_prompt_edges`. -/
def normPair (a b : Nat) : Nat × Nat := if a < b then (a, b) else (b, a)

/-- `edges.add(e)` on a Python set, embedded as append-if-absent on a
duplicate-free list. -/
def addEdge (es : List (Nat × Nat)) (e : Nat × Nat) : List (Nat × Nat) :=
  if e ∈ es then es else es ++ [e]

/-- The circulant-construction candidate edges of `_build_prompt_edges`:
for each offset `k` in `1..effective_m // 2` and each position `i`,
the canonicalised pair of `user_ids[i]` and `user_ids[(i + k) % n]`,
skipping the `a == b` guard case. -/
def circCandidates (ids : List Nat) (h : Nat) : List (Nat × Nat) :=
  (List.range' 1 h).flatMap (fun k =>
    (List.range ids.length).filterMap (fun i =>
      let a := ids.getD i 0
      let b := ids.getD ((i + k) % ids.length) 0
      if a = b then none else some (normPair a b)))

/-- The odd-degree perfect-matching candidates of `_build_prompt_edges`:
position `i` paired with position `i + n/2` for `i < n/2` (no `a == b`
guard in the source here). -/
def matchCandidates (ids : List Nat) : List (Nat × Nat) :=
  (List.range (ids.length / 2)).map (fun i =>
    normPair (ids.getD i 0) (ids.getD (i + ids.length / 2) 0))

/-- The degree adjustment of `_build_prompt_edges` for `n ≥ 3`:
`effective_m = min(m, n - 1)`, decremented once if `n * effective_m` is
odd (a graph cannot have an odd degree sum). -/
def effective_m (n : Nat) (m : Int) : Int :=
  let em0 : Int := min m ((n : Int) - 1)
  if (n * em0) % 2 = 1 then em0 - 1 else em0

/-- The deduplicated edge list built by `_build_prompt_edges` for `n ≥ 3`
and positive effective degree `em`: circulant edges for offsets
`1..em // 2`, plus the opposite perfect matching when `em` is odd and `n`
is even, inserted into a deduplicating set. -/
def edgeList (ids : List Nat) (em : Int) : List (Nat × Nat) :=
  (circCandidates ids (em / 2).toNat ++
      (if em % 2 = 1 ∧ ids.length % 2 = 0 then matchCandidates ids else [])).foldl
    addEdge []

/-- `GameManager._build_prompt_edges(user_ids, m)` (the returned list is
`random.shuffle`d in the source; the shuffle is dropped here and every
property proved about the result is permutation-invariant). -/
def build_prompt_edges (ids : List Nat) (m : Int) : List (Nat × Nat) × Int :=
  let n := ids.length
  if n < 2 ∨ m ≤ 0 then ([], 0)
  else if n = 2 then (List.replicate m.toNat (ids.getD 0 0, ids.getD 1 0), m)
  else
    let em : Int := effective_m n m
    if em ≤ 0 then ([], 0)
    else (edgeList ids em, em)

/-- Observable side effects of the engine (messages, polls, scoreboard);
message text carries no game logic, so effects are recorded as tags. -/
inductive Effect where
  | dmRoundStart (uid : Nat)
  | dmPrompt (uid mid : Nat)
  | dmHalfWarning (uid : Nat)
  | dmLastWarning (uid : Nat)
  | dmAnswerRecorded (uid : Nat)
  | dmInvalidPrompt (uid : Nat)
  | pollOpened (pollId p1 p2 : Nat)
  | scoreboardSent (scores : List (Nat × ℚ))
  | noticeNeedTwoPlayers
  | announceRoundStart (numPlayers : Nat)
  | groupGameEnded
  deriving DecidableEq, Repr

/-- One head-to-head matchup as built by `build_versus_pairs`:
`(prompt_text, p1_id, idx1, p2_id, idx2)`. -/
structure VersusPair where
  text : String
  p1 : Nat
  idx1 : Nat
  p2 : Nat
  idx2 : Nat
  deriving DecidableEq, Repr

/-- The session state of `models/Game.py` (one `Game` object per group).
Python dicts are insertion-ordered association lists; float scores are
exact rationals; the `completed_polls` set is a duplicate-free list.
Display names carry no game logic and are omitted from `players`. -/
structure Game where
  groupId : Int
  players : List Nat
  round : Nat
  locked : Bool
  pendingAnswers : List (Nat × List (Option String))
  versusPairs : List VersusPair
  scores : List (Nat × ℚ)
  votes : List (Nat × List (Nat × Nat))
  promptMessages : List (Nat × List (Nat × Nat))
  pollMap : List (Nat × (Nat × Nat))
  assignedPrompts : List (Nat × List ((Nat × Nat) × String))
  completedPolls : List Nat
  deriving DecidableEq, Repr

/-- A fresh `Game(group_id)`. -/
def Game.new (groupId : Int) : Game :=
  { groupId := groupId, players := [], round := 0, locked := false,
    pendingAnswers := [], versusPairs := [], scores := [], votes := [],
    promptMessages := [], pollMap := [], assignedPrompts := [],
    completedPolls := [] }

/-- `Game.init_scores`: give every player a 0.0 entry unless already
present. -/
def init_scores (g : Game) : Game :=
  { g with scores := g.players.foldl (fun s uid => dictSetdefault s uid 0) g.scores }

/-- `set.add` on `completed_polls`. -/
def setAdd (s : List Nat) (x : Nat) : List Nat := if x ∈ s then s else s ++ [x]

/-- `GameManager.calculate_poll_score(game, poll_id)`: no-op if the poll
id is not in the poll table; otherwise split 50/50 on zero votes, or
award each side `100 * its votes / total`, then mark the poll
completed. -/
def calculate_poll_score (g : Game) (pollId : Nat) : Game :=
  match List.lookup pollId g.pollMap with
  | none => g
  | some (p1, p2) =>
      let votes := (List.lookup pollId g.votes).getD []
      let total := votes.length
      let s0 := dictSetdefault (dictSetdefault g.scores p1 0) p2 0
      let s1 :=
        if total = 0 then
          dictAdd (dictAdd s0 p1 50) p2 50
        else
          let p1v := (votes.filter (fun kv => kv.2 = 0)).length
          let p2v := total - p1v
          dictAdd (dictAdd s0 p1 (100 * ((p1v : ℚ) / (total : ℚ))))
            p2 (100 * ((p2v : ℚ) / (total : ℚ)))
      { g with scores := s1, completedPolls := setAdd g.completedPolls pollId }

/-- A player's cumulative score, reading an absent entry as `0.0` (the
convention `scores.setdefault(uid, 0.0)` establishes before awarding). -/
def scoreOf (g : Game) (uid : Nat) : ℚ := ((List.lookup uid g.scores).getD 0)

/-- The fallback placeholder written into still-unset answer slots at the
collection deadline. -/
def fallbackAnswer : String := "❌ No response"

/-- `bot.handle_poll_answer` restricted to the session whose `votes`
table contains the poll: record (or overwrite) the voter's choice, and
once the number of recorded votes reaches the number of players, run
`calculate_poll_score`. -/
def handle_poll_answer (g : Game) (userId pollId choice : Nat) : Game :=
  match List.lookup pollId g.votes with
  | none => g
  | some inner =>
      let g1 := { g with votes := dictSet g.votes pollId (dictSet inner userId choice) }
      if g1.players.length ≤ ((List.lookup pollId g1.votes).getD []).length then
        calculate_poll_score g1 pollId
      else g1

/-- A run of `handle_poll_answer` events `(user, poll, choice)`. -/
def runPollAnswers (g : Game) (evs : List (Nat × Nat × Nat)) : Game :=
  evs.foldl (fun gacc e => handle_poll_answer gacc e.1 e.2.1 e.2.2) g

/-- The answer currently held by player `u`'s slot `i`. -/
def slotOf (g : Game) (u i : Nat) : Option String :=
  ((List.lookup u g.pendingAnswers).getD []).getD i none

/-- `bot.handle_dm` for the session containing the player: resolve the
replied-to message to a prompt index and store the answer there
(unconditionally — the source never checks whether the slot is already
filled). -/
def handle_dm (g : Game) (userId mid : Nat) (text : String) : Game × List Effect :=
  if userId ∈ g.players then
    match List.lookup mid ((List.lookup userId g.promptMessages).getD []) with
    | none => (g, [Effect.dmInvalidPrompt userId])
    | some idx =>
        ({ g with
            pendingAnswers := dictSet g.pendingAnswers userId
              (((List.lookup userId g.pendingAnswers).getD []).set idx (some text)) },
          [Effect.dmAnswerRecorded userId])
  else (g, [])

/-- The deadline backfill of `GameManager._round_timer`: every slot still
`None` is set to the fallback placeholder. -/
def mark_unanswered (g : Game) : Game :=
  { g with
    pendingAnswers := g.pendingAnswers.map (fun kv =>
      (kv.1, kv.2.map (fun o =>
        match o with
        | none => some fallbackAnswer
        | some a => some a))) }

/-- `prompt_map.setdefault(prompt_id, {"text": t, "entries": []})["entries"].append(entry)`. -/
def pmAppend (pm : List ((Nat × Nat) × (String × List (Nat × Nat))))
    (pid : Nat × Nat) (text : String) (entry : Nat × Nat) :
    List ((Nat × Nat) × (String × List (Nat × Nat))) :=
  match List.lookup pid pm with
  | none => pm ++ [(pid, (text, [entry]))]
  | some (t, es) => dictSet pm pid (t, es ++ [entry])

/-- Stable insertion into a user-id-sorted entry list. -/
def insertSorted (a : Nat × Nat) : List (Nat × Nat) → List (Nat × Nat)
  | [] => [a]
  | b :: t => if a.1 ≤ b.1 then a :: b :: t else b :: insertSorted a t

/-- `entries.sort(key=lambda x: x[0])` — a stable sort by user id
(insertion sort computes the same list as any stable sort by key). -/
def sortEntries : List (Nat × Nat) → List (Nat × Nat)
  | [] => []
  | a :: t => insertSorted a (sortEntries t)

/-- Sequential pairing `(0,1), (2,3), …` of a prompt's entries (an odd
trailing entry is dropped, as in the source's `range(0, len-1, 2)`). -/
def seqPairs (text : String) : List (Nat × Nat) → List VersusPair
  | a :: b :: rest =>
      { text := text, p1 := a.1, idx1 := a.2, p2 := b.1, idx2 := b.2 } ::
        seqPairs text rest
  | _ => []

/-- `GameManager.build_versus_pairs`: group assigned prompts by per-round
prompt id, sort each prompt's entries by player id, pair sequentially.
(The source's `if not prompt_id: continue` guard never fires: prompt ids
`r…_e…` are never falsy, and here they are modelled as `(round, edge)`
pairs.) -/
def build_versus_pairs (g : Game) : Game :=
  let pm := g.assignedPrompts.foldl (fun pmAcc upair =>
    upair.2.enum.foldl (fun pmAcc2 pi =>
      pmAppend pmAcc2 pi.2.1 pi.2.2 (upair.1, pi.1)) pmAcc) []
  let pairs := pm.foldl (fun acc kv =>
    acc ++ seqPairs kv.2.1 (sortEntries kv.2.2)) []
  { g with versusPairs := pairs }

/-- `GameManager.start_versus_phase`: build the versus pairs, open a poll
per pair (poll ids supplied by `pids`, the interleaved inbound
`handle_poll_answer` events per poll by `arrivals`), wait out each poll
(the bounded wait loop changes no session state), and finally emit the
scoreboard.  The per-poll `calculate_poll_score` call is commented out in
the source and is therefore absent here: during this phase scores change
only through `handle_poll_answer`. -/
def start_versus_phase (g : Game) (pids : Nat → Nat)
    (arrivals : List (List (Nat × Nat))) : Game × List Effect :=
  let gv := build_versus_pairs g
  let gfin := gv.versusPairs.enum.foldl (fun gacc pr =>
      let gop := { gacc with
        votes := dictSet gacc.votes (pids pr.1) [],
        pollMap := dictSet gacc.pollMap (pids pr.1) (pr.2.p1, pr.2.p2) }
      (arrivals.getD pr.1 []).foldl
        (fun gg uv => handle_poll_answer gg uv.1 (pids pr.1) uv.2) gop) gv
  (gfin,
    gv.versusPairs.enum.map (fun pr => Effect.pollOpened (pids pr.1) pr.2.p1 pr.2.p2)
      ++ [Effect.scoreboardSent gfin.scores])

/-- The body of `GameManager._round_timer` after its sleeps: half-time and
last-seconds warnings to every player, the deadline backfill, then the
versus phase. -/
def round_timer_run (g : Game) (pids : Nat → Nat)
    (arrivals : List (List (Nat × Nat))) : Game × List Effect :=
  let warnEffs := g.players.map Effect.dmHalfWarning ++ g.players.map Effect.dmLastWarning
  let g1 := mark_unanswered g
  let res := start_versus_phase g1 pids arrivals
  (res.1, warnEffs ++ res.2)

/-- `del d[k]` on a Python dict. -/
def dictRemove [DecidableEq α] : List (α × β) → α → List (α × β)
  | [], _ => []
  | (a, b) :: t, k => if a = k then t else (a, b) :: dictRemove t k

/-- Process-wide state of `bot.py`: the `GameManager.active_games` table,
the event loop's pending `_round_timer` tasks (each task holds a direct
reference to its `Game`; `start_round` stores no handle to the task), and
the trace of emitted effects. -/
structure World where
  activeGames : List (Int × Game)
  pendingTimers : List Game
  effects : List Effect
  deriving Repr

/-- `GameManager.stop_game(group_id)` as invoked by `/end_game`: remove
the session from `active_games`.  The source neither stores nor cancels
the round-timer task, so `pendingTimers` is untouched. -/
def stop_game (w : World) (gid : Int) : World :=
  { w with activeGames := dictRemove w.activeGames gid,
           effects := w.effects ++ [Effect.groupGameEnded] }

/-- The event loop runs the oldest pending `_round_timer` task to
completion.  The task operates on the `Game` object it captured when
`asyncio.create_task` was called, whether or not that game is still in
`active_games`. -/
def fire_timer (w : World) (pids : Nat → Nat) : World :=
  match w.pendingTimers with
  | [] => w
  | g :: rest =>
      let res := round_timer_run g pids []
      { w with pendingTimers := rest, effects := w.effects ++ res.2 }

/-- `game.assigned_prompts[k].append(item)`. -/
def apAppend (d : List (Nat × List ((Nat × Nat) × String))) (k : Nat)
    (item : (Nat × Nat) × String) : List (Nat × List ((Nat × Nat) × String)) :=
  dictSet d k (((List.lookup k d).getD []) ++ [item])

/-- The substitute prompt list used when the prompt pool returns nothing. -/
def noPromptsFallback : String := "⚠️ No prompts available (check data/prompts.txt)."

/-- One iteration of the prompt-assignment loop: edge `(idx, (u, v))`
gets prompt id `(round, idx)` — embedding the injective string
`f"r{round}_e{idx}"` — and its text, appended to both endpoints' lists. -/
def edgeStep (r : Nat) (ptexts : List String)
    (d : List (Nat × List ((Nat × Nat) × String))) (epr : Nat × (Nat × Nat)) :
    List (Nat × List ((Nat × Nat) × String)) :=
  apAppend (apAppend d epr.2.1 ((r, epr.1), ptexts.getD (epr.1 % ptexts.length) ""))
    epr.2.2 ((r, epr.1), ptexts.getD (epr.1 % ptexts.length) "")

/-- The per-edge prompt assignment loop of `start_round`. -/
def assign_prompts (g : Game) (edges : List (Nat × Nat)) (ptexts : List String) : Game :=
  edges.enum.foldl (fun gacc epr =>
    { gacc with
      assignedPrompts := edgeStep gacc.round ptexts gacc.assignedPrompts epr }) g

/-- `GameManager.start_round(game, …, m)`. `ids` is the `random.shuffle`d
player-id list (quantifying over `ids` covers every permutation),
`promptTexts` the sample returned by the prompt manager, and `mids` the
Telegram message ids of the per-prompt DMs.  The source ends by spawning
`_round_timer` as a task; that task lives at the `World` level. -/
def start_round (g : Game) (ids : List Nat) (m : Int) (promptTexts : List String)
    (mids : Nat → Nat → Nat) : Game × List Effect :=
  let g0 := init_scores g
  let g1 := { g0 with
    round := g0.round + 1,
    promptMessages := g0.players.map (fun u => (u, [])),
    assignedPrompts := g0.players.map (fun u => (u, [])),
    votes := [], pollMap := [], completedPolls := [] }
  let ep := build_prompt_edges ids m
  let g2 := { g1 with
    pendingAnswers := g1.players.map (fun u => (u, List.replicate ep.2.toNat none)) }
  let ptexts := if promptTexts.isEmpty then [noPromptsFallback] else promptTexts
  let g3 := assign_prompts g2 ep.1 ptexts
  let g4 := { g3 with
    promptMessages := g3.players.map (fun u =>
      (u, ((List.lookup u g3.assignedPrompts).getD []).enum.map
        (fun pr => (mids u pr.1, pr.1)))) }
  (g4,
    g4.players.flatMap (fun u =>
      Effect.dmRoundStart u ::
        ((List.lookup u g4.assignedPrompts).getD []).enum.map
          (fun pr => Effect.dmPrompt u (mids u pr.1))))

/-- `bot.start_game` for an existing lobby: reject with a group notice if
fewer than two players, otherwise lock the session, announce, and start a
round with the default degree `m = 2`. -/
def start_game_cmd (g : Game) (ids : List Nat) (promptTexts : List String)
    (mids : Nat → Nat → Nat) : Game × List Effect :=
  if g.players.length < 2 then (g, [Effect.noticeNeedTwoPlayers])
  else
    let g1 := { g with locked := true }
    let res := start_round g1 ids 2 promptTexts mids
    (res.1, Effect.announceRoundStart g.players.length :: res.2)

/-- `bot.next_round` for an existing session: announce and start a round.
The source performs no player-count check here. -/
def next_round_cmd (g : Game) (ids : List Nat) (promptTexts : List String)
    (mids : Nat → Nat → Nat) : Game × List Effect :=
  let res := start_round g ids 2 promptTexts mids
  (res.1, Effect.announceRoundStart g.players.length :: res.2)

/-- Concrete two-player session used to exercise poll scoring: one open
poll `9` between players `1` and `2`, no votes yet. -/
def gPoll : Game :=
  { Game.new 0 with
    players := [1, 2],
    pollMap := [(9, (1, 2))],
    votes := [(9, [])],
    scores := [(1, 0), (2, 0)] }

/-- Concrete two-player session entering the versus phase: one shared
prompt, both answers recorded. -/
def gVersus : Game :=
  { Game.new 0 with
    players := [1, 2],
    assignedPrompts := [(1, [((1, 0), "P")]), (2, [((1, 0), "P")])],
    pendingAnswers := [(1, [some "a1"]), (2, [some "a2"])],
    scores := [(1, 0), (2, 0)] }

/-- Concrete two-player session mid-collection (player 1 yet to answer),
whose round timer is still pending. -/
def gTimer : Game :=
  { Game.new 7 with
    players := [1, 2],
    assignedPrompts := [(1, [((1, 0), "P")]), (2, [((1, 0), "P")])],
    pendingAnswers := [(1, [none]), (2, [some "a2"])] }

/-- World in which group `7`'s session is active and its collection-phase
round timer is pending. -/
def wTimer : World :=
  { activeGames := [(7, gTimer)], pendingTimers := [gTimer], effects := [] }

/-- Concrete session in which player `7` already answered prompt `0`
(sent as message `100`) with the genuine answer `"A"`. -/
def gDm : Game :=
  { Game.new 0 with
    players := [7],
    promptMessages := [(7, [(100, 0)])],
    pendingAnswers := [(7, [some "A"])] }

/-- Concrete one-player lobby. -/
def gLobby1 : Game := { Game.new 0 with players := [5] }

/-- Concrete two-player lobby. -/
def gLobby2 : Game := { Game.new 0 with players := [1, 2] }

@[simp] theorem lookup_dictSet_self {α β : Type} [DecidableEq α]
    (d : List (α × β)) (k : α) (v : β) :
    List.lookup k (dictSet d k v) = some v := by
  induction d with
  | nil => simp [dictSet, List.lookup]
  | cons hd t ih =>
      obtain ⟨a, b⟩ := hd
      by_cases h : a = k
      · simp [dictSet, h, List.lookup]
      · have hk : (k == a) = false := beq_eq_false_iff_ne.mpr (Ne.symm h)
        simp [dictSet, h, List.lookup, hk, ih]

@[simp] theorem lookup_dictSet_ne {α β : Type} [DecidableEq α]
    (d : List (α × β)) (k k' : α) (v : β) (h : k' ≠ k) :
    List.lookup k' (dictSet d k v) = List.lookup k' d := by
  have hk : (k' == k) = false := beq_eq_false_iff_ne.mpr h
  induction d with
  | nil => simp [dictSet, List.lookup, hk]
  | cons hd t ih =>
      obtain ⟨a, b⟩ := hd
      by_cases ha : a = k
      · subst ha
        simp [dictSet, List.lookup, hk]
      · simp [dictSet, ha, List.lookup, ih]

@[simp] theorem lookup_dictSetdefault_present {α β : Type} [DecidableEq α]
    (d : List (α × β)) (k : α) (v w : β) (h : List.lookup k d = some w) :
    List.lookup k (dictSetdefault d k v) = some w := by
  simp [dictSetdefault, h]

@[simp] theorem lookup_dictSetdefault_absent {α β : Type} [DecidableEq α]
    (d : List (α × β)) (k : α) (v : β) (h : List.lookup k d = none) :
    List.lookup k (dictSetdefault d k v) = some v := by
  simp [dictSetdefault, h, List.lookup_append, beq_iff_eq]

@[simp] theorem lookup_dictSetdefault_ne {α β : Type} [DecidableEq α]
    (d : List (α × β)) (k k' : α) (v : β) (h : k' ≠ k) :
    List.lookup k' (dictSetdefault d k v) = List.lookup k' d := by
  cases hl : List.lookup k d with
  | some w => simp [dictSetdefault, hl]
  | none =>
      have hk : (k' == k) = false := beq_eq_false_iff_ne.mpr h
      simp [dictSetdefault, hl, List.lookup_append, List.lookup, hk]

theorem getD_dictAdd_self [DecidableEq α] (d : List (α × ℚ)) (k : α) (x : ℚ) :
    ((List.lookup k (dictAdd d k x)).getD 0) = ((List.lookup k d).getD 0) + x := by
  simp [dictAdd]

theorem lookup_dictAdd_ne [DecidableEq α] (d : List (α × ℚ)) (k k' : α) (x : ℚ)
    (h : k' ≠ k) : List.lookup k' (dictAdd d k x) = List.lookup k' d := by
  simp [dictAdd, h]

theorem mem_addEdge {es : List (Nat × Nat)} {e a : Nat × Nat} :
    a ∈ addEdge es e ↔ a ∈ es ∨ a = e := by
  by_cases h : e ∈ es
  · simp only [addEdge, if_pos h]
    exact ⟨Or.inl, fun hx => hx.elim id (fun hae => hae ▸ h)⟩
  · simp [addEdge, if_neg h]

theorem nodup_addEdge {es : List (Nat × Nat)} (h : es.Nodup) (e : Nat × Nat) :
    (addEdge es e).Nodup := by
  by_cases he : e ∈ es
  · simpa [addEdge, he] using h
  · simp [addEdge, he, List.nodup_append, h]

theorem mem_foldl_addEdge {xs : List (Nat × Nat)} {es : List (Nat × Nat)}
    {a : Nat × Nat} : a ∈ xs.foldl addEdge es ↔ a ∈ es ∨ a ∈ xs := by
  induction xs generalizing es with
  | nil => simp
  | cons x t ih =>
      simp only [List.foldl_cons, ih, mem_addEdge, List.mem_cons]
      tauto

theorem nodup_foldl_addEdge (xs : List (Nat × Nat)) {es : List (Nat × Nat)}
    (h : es.Nodup) : (xs.foldl addEdge es).Nodup := by
  induction xs generalizing es with
  | nil => simpa
  | cons x t ih => exact ih (nodup_addEdge h x)

theorem normPair_comm (a b : Nat) : normPair a b = normPair b a := by
  by_cases h : a < b
  · have h2 : ¬b < a := Nat.lt_asymm h
    simp [normPair, h, h2]
  · by_cases h2 : b < a
    · simp [normPair, h, h2]
    · have : a = b := Nat.le_antisymm (Nat.le_of_not_lt h2) (Nat.le_of_not_lt h)
      simp [normPair, h, h2, this]

theorem normPair_cases (a b : Nat) :
    ((normPair a b).1 = a ∧ (normPair a b).2 = b) ∨
      ((normPair a b).1 = b ∧ (normPair a b).2 = a) := by
  unfold normPair
  split <;> simp

theorem normPair_fst_lt_snd {a b : Nat} (h : a ≠ b) :
    (normPair a b).1 < (normPair a b).2 := by
  unfold normPair
  split <;> simp <;> omega

theorem normPair_inj_right {a b c : Nat} (hab : b ≠ a) (hac : c ≠ a) :
    normPair a b = normPair a c → b = c := by
  unfold normPair
  intro h
  split at h <;> split at h <;> simp [Prod.ext_iff] at h <;> omega

theorem getD_ne_of_nodup {ids : List Nat} (h : ids.Nodup) {i j : Nat}
    (hi : i < ids.length) (hj : j < ids.length) (hij : i ≠ j) :
    ids.getD i 0 ≠ ids.getD j 0 := by
  rw [List.getD_eq_getElem _ _ hi, List.getD_eq_getElem _ _ hj]
  intro heq
  exact hij (List.Nodup.getElem_inj_iff h |>.mp heq)

theorem mem_circCandidates {ids : List Nat} {h : Nat} {e : Nat × Nat} :
    e ∈ circCandidates ids h ↔
      ∃ k, (1 ≤ k ∧ k < 1 + h) ∧ ∃ i, i < ids.length ∧
        ¬ids.getD i 0 = ids.getD ((i + k) % ids.length) 0 ∧
        normPair (ids.getD i 0) (ids.getD ((i + k) % ids.length) 0) = e := by
  simp only [circCandidates, List.mem_flatMap, List.mem_filterMap, List.mem_range,
    List.mem_range'_1]
  constructor
  · rintro ⟨k, hk, i, hi, hop⟩
    split at hop
    · exact absurd hop (by simp)
    · rename_i hne
      exact ⟨k, hk, i, hi, hne, Option.some.inj hop⟩
  · rintro ⟨k, hk, i, hi, hne, heq⟩
    refine ⟨k, hk, i, hi, ?_⟩
    rw [if_neg hne]
    exact congrArg some heq

theorem mem_matchCandidates {ids : List Nat} {e : Nat × Nat} :
    e ∈ matchCandidates ids ↔
      ∃ i, i < ids.length / 2 ∧
        normPair (ids.getD i 0) (ids.getD (i + ids.length / 2) 0) = e := by
  simp [matchCandidates, List.mem_map, List.mem_range]

theorem mem_edgeList {ids : List Nat} {em : Int} {e : Nat × Nat} :
    e ∈ edgeList ids em ↔
      e ∈ circCandidates ids ((em / 2).toNat) ∨
        ((em % 2 = 1 ∧ ids.length % 2 = 0) ∧ e ∈ matchCandidates ids) := by
  unfold edgeList
  rw [mem_foldl_addEdge]
  simp only [List.not_mem_nil, false_or, List.mem_append]
  split_ifs with hc <;> simp [hc]

theorem nodup_edgeList (ids : List Nat) (em : Int) : (edgeList ids em).Nodup :=
  nodup_foldl_addEdge _ List.nodup_nil

theorem edgeList_fst_lt_snd {ids : List Nat} {em : Int} (hnd : ids.Nodup)
    (hn : 2 ≤ ids.length) {e : Nat × Nat} (he : e ∈ edgeList ids em) :
    e.1 < e.2 := by
  rw [mem_edgeList] at he
  rcases he with hc | ⟨⟨_, _⟩, hm⟩
  · rw [mem_circCandidates] at hc
    obtain ⟨k, _, i, _, hne, heq⟩ := hc
    rw [← heq]
    exact normPair_fst_lt_snd hne
  · rw [mem_matchCandidates] at hm
    obtain ⟨i, hi, heq⟩ := hm
    rw [← heq]
    refine normPair_fst_lt_snd (getD_ne_of_nodup hnd ?_ ?_ ?_) <;> omega

theorem build_prompt_edges_n3 {ids : List Nat} {m : Int} (hn : 3 ≤ ids.length)
    (hm : 1 ≤ m) :
    (build_prompt_edges ids m).1 = [] ∨
      (build_prompt_edges ids m).1 = edgeList ids (effective_m ids.length m) := by
  unfold build_prompt_edges
  have h1 : ¬(ids.length < 2 ∨ m ≤ 0) := by push_neg; omega
  rw [if_neg h1, if_neg (by omega : ¬ids.length = 2)]
  dsimp only
  split_ifs with h2
  · exact Or.inl rfl
  · exact Or.inr rfl

/-- C2: For a list of distinct player ids and a target degree `m`:
if `N < 2` or `m ≤ 0` the builder returns an empty edge list; if `N = 2`
it returns exactly `m` copies of the single possible pair; and for
`N ≥ 3`, `m ≥ 1` the returned list has no self-edges and no duplicate
unordered pairs. -/
theorem C2_matchup_builder_shape (ids : List Nat) (m : Int) (hnd : ids.Nodup) :
    (ids.length < 2 ∨ m ≤ 0 → (build_prompt_edges ids m).1 = []) ∧
      (ids.length = 2 → 1 ≤ m →
        (build_prompt_edges ids m).1.length = m.toNat ∧
          ∀ e ∈ (build_prompt_edges ids m).1, e = (ids.getD 0 0, ids.getD 1 0)) ∧
      (3 ≤ ids.length → 1 ≤ m →
        (∀ e ∈ (build_prompt_edges ids m).1, e.1 ≠ e.2) ∧
          List.Pairwise (fun a b => a ≠ b ∧ a ≠ b.swap)
            (build_prompt_edges ids m).1) := by
  refine ⟨?_, ?_, ?_⟩
  · intro h
    unfold build_prompt_edges
    rw [if_pos h]
  · intro h2 hm
    have h1 : ¬(ids.length < 2 ∨ m ≤ 0) := by push_neg; omega
    unfold build_prompt_edges
    rw [if_neg h1, if_pos h2]
    exact ⟨List.length_replicate _ _, fun e he => List.eq_of_mem_replicate he⟩
  · intro h3 hm
    rcases build_prompt_edges_n3 h3 hm with h | h
    · rw [h]
      exact ⟨fun e he => absurd he (List.not_mem_nil e), List.Pairwise.nil⟩
    · rw [h]
      have hlt : ∀ e ∈ edgeList ids (effective_m ids.length m), e.1 < e.2 :=
        fun e he => edgeList_fst_lt_snd hnd (by omega) he
      refine ⟨fun e he => Nat.ne_of_lt (hlt e he), ?_⟩
      have hnd' := nodup_edgeList ids (effective_m ids.length m)
      refine List.Pairwise.imp_of_mem ?_ hnd'
      intro a b ha hb hab
      refine ⟨hab, ?_⟩
      intro hsw
      have h1 := hlt a ha
      have h2 := hlt b hb
      rw [hsw] at h1
      simp [Prod.swap] at h1
      omega

/-- Witness for C2 at the concrete input `ids = [3, 1, 2]`, `m = 2`. -/
theorem C2_matchup_builder_shape_witness :
    ([3, 1, 2] : List Nat).Nodup ∧
      (([3, 1, 2] : List Nat).length < 2 ∨ (2 : Int) ≤ 0 →
          (build_prompt_edges [3, 1, 2] 2).1 = []) ∧
        (([3, 1, 2] : List Nat).length = 2 → (1 : Int) ≤ 2 →
          (build_prompt_edges [3, 1, 2] 2).1.length = (2 : Int).toNat ∧
            ∀ e ∈ (build_prompt_edges [3, 1, 2] 2).1,
              e = (([3, 1, 2] : List Nat).getD 0 0, ([3, 1, 2] : List Nat).getD 1 0)) ∧
        (3 ≤ ([3, 1, 2] : List Nat).length → (1 : Int) ≤ 2 →
          (∀ e ∈ (build_prompt_edges [3, 1, 2] 2).1, e.1 ≠ e.2) ∧
            List.Pairwise (fun a b => a ≠ b ∧ a ≠ b.swap)
              (build_prompt_edges [3, 1, 2] 2).1) :=
  ⟨by decide, C2_matchup_builder_shape [3, 1, 2] 2 (by decide)⟩

theorem getD_dictSetdefault_zero [DecidableEq α] (d : List (α × ℚ)) (k : α) :
    ((List.lookup k (dictSetdefault d k 0)).getD 0) = ((List.lookup k d).getD 0) := by
  cases h : List.lookup k d with
  | none => simp [lookup_dictSetdefault_absent d k 0 h, h]
  | some w => simp [lookup_dictSetdefault_present d k 0 w h, h]

theorem getD_dictSetdefault_ne [DecidableEq α] (d : List (α × ℚ)) (k k' : α)
    (v : ℚ) (h : k' ≠ k) :
    ((List.lookup k' (dictSetdefault d k v)).getD 0) = ((List.lookup k' d).getD 0) := by
  rw [lookup_dictSetdefault_ne d k k' v h]

theorem calc_scores_eq (g : Game) (pollId p1 p2 : Nat)
    (hpoll : List.lookup pollId g.pollMap = some (p1, p2)) :
    calculate_poll_score g pollId =
      { g with
        scores :=
          if ((List.lookup pollId g.votes).getD []).length = 0 then
            dictAdd (dictAdd (dictSetdefault (dictSetdefault g.scores p1 0) p2 0) p1 50)
              p2 50
          else
            dictAdd
              (dictAdd (dictSetdefault (dictSetdefault g.scores p1 0) p2 0) p1
                (100 * (((((List.lookup pollId g.votes).getD []).filter
                      (fun kv => kv.2 = 0)).length : ℚ) /
                  (((List.lookup pollId g.votes).getD []).length : ℚ))))
              p2
              (100 * (((((List.lookup pollId g.votes).getD []).length -
                    (((List.lookup pollId g.votes).getD []).filter
                      (fun kv => kv.2 = 0)).length : ℕ) : ℚ) /
                (((List.lookup pollId g.votes).getD []).length : ℚ))),
        completedPolls := setAdd g.completedPolls pollId } := by
  simp only [calculate_poll_score, hpoll]

theorem calc_none_eq (g : Game) (pollId : Nat)
    (hpoll : List.lookup pollId g.pollMap = none) :
    calculate_poll_score g pollId = g := by
  simp only [calculate_poll_score, hpoll]

theorem getD_dictSetdefault_zero_all [DecidableEq α] (d : List (α × ℚ)) (k u : α) :
    ((List.lookup u (dictSetdefault d k 0)).getD 0) = ((List.lookup u d).getD 0) := by
  by_cases h : u = k
  · subst h; exact getD_dictSetdefault_zero d u
  · exact getD_dictSetdefault_ne d k u 0 h

theorem getD_dictAdd_mono [DecidableEq α] (d : List (α × ℚ)) (k : α) (x : ℚ)
    (hx : 0 ≤ x) (u : α) :
    ((List.lookup u d).getD 0) ≤ ((List.lookup u (dictAdd d k x)).getD 0) := by
  by_cases h : u = k
  · subst h
    rw [getD_dictAdd_self]
    linarith
  · rw [lookup_dictAdd_ne d k u x h]

theorem filter_binary_split (l : List (Nat × Nat))
    (hbin : ∀ kv ∈ l, kv.2 = 0 ∨ kv.2 = 1) :
    (l.filter (fun kv => kv.2 = 1)).length =
      l.length - (l.filter (fun kv => kv.2 = 0)).length := by
  induction l with
  | nil => simp
  | cons hd t ih =>
      have hbt : ∀ kv ∈ t, kv.2 = 0 ∨ kv.2 = 1 :=
        fun kv hkv => hbin kv (List.mem_cons_of_mem hd hkv)
      have hfle : (t.filter (fun kv => kv.2 = 0)).length ≤ t.length :=
        List.length_filter_le _ _
      have iht := ih hbt
      rcases hbin hd (List.mem_cons_self hd t) with h | h <;>
        simp [List.filter_cons, h] <;> omega

/-- C1: For every poll present in the session's poll table (with its
two distinct participants): zero recorded votes award both participants
exactly 50.0; a positive total awards participant 0 exactly
`100 * v1/total` and participant 1 exactly `100 * v2/total` (votes being
option-0 or option-1 choices), and the two awards sum to exactly 100. -/
theorem C1_poll_scoring (g : Game) (pollId p1 p2 : Nat)
    (hpoll : List.lookup pollId g.pollMap = some (p1, p2)) (hne : p1 ≠ p2) :
    (((List.lookup pollId g.votes).getD []).length = 0 →
        scoreOf (calculate_poll_score g pollId) p1 = scoreOf g p1 + 50 ∧
          scoreOf (calculate_poll_score g pollId) p2 = scoreOf g p2 + 50) ∧
      (0 < ((List.lookup pollId g.votes).getD []).length →
        (∀ kv ∈ (List.lookup pollId g.votes).getD [], kv.2 = 0 ∨ kv.2 = 1) →
        scoreOf (calculate_poll_score g pollId) p1 =
            scoreOf g p1 +
              100 * (((((List.lookup pollId g.votes).getD []).filter
                    (fun kv => kv.2 = 0)).length : ℚ) /
                (((List.lookup pollId g.votes).getD []).length : ℚ)) ∧
          scoreOf (calculate_poll_score g pollId) p2 =
            scoreOf g p2 +
              100 * (((((List.lookup pollId g.votes).getD []).filter
                    (fun kv => kv.2 = 1)).length : ℚ) /
                (((List.lookup pollId g.votes).getD []).length : ℚ)) ∧
          (scoreOf (calculate_poll_score g pollId) p1 - scoreOf g p1) +
              (scoreOf (calculate_poll_score g pollId) p2 - scoreOf g p2) = 100) := by
  have hne' : p2 ≠ p1 := Ne.symm hne
  rw [calc_scores_eq g pollId p1 p2 hpoll]
  constructor
  · intro h0
    rw [scoreOf, scoreOf, scoreOf, scoreOf]
    simp only [if_pos h0]
    constructor
    · rw [lookup_dictAdd_ne _ p2 p1 _ hne, getD_dictAdd_self,
        getD_dictSetdefault_zero_all, getD_dictSetdefault_zero_all]
    · rw [getD_dictAdd_self, lookup_dictAdd_ne _ p1 p2 _ hne',
        getD_dictSetdefault_zero_all, getD_dictSetdefault_zero_all]
  · intro hpos hbin
    have h0 : ¬((List.lookup pollId g.votes).getD []).length = 0 := by omega
    have hv2 : (((List.lookup pollId g.votes).getD []).filter
          (fun kv => kv.2 = 1)).length =
        ((List.lookup pollId g.votes).getD []).length -
          (((List.lookup pollId g.votes).getD []).filter
            (fun kv => kv.2 = 0)).length :=
      filter_binary_split _ hbin
    have hle : (((List.lookup pollId g.votes).getD []).filter
          (fun kv => kv.2 = 0)).length ≤
        ((List.lookup pollId g.votes).getD []).length := List.length_filter_le _ _
    rw [scoreOf, scoreOf, scoreOf, scoreOf]
    simp only [if_neg h0]
    have e1 : ((List.lookup p1 (dictAdd
          (dictAdd (dictSetdefault (dictSetdefault g.scores p1 0) p2 0) p1
            (100 * (((((List.lookup pollId g.votes).getD []).filter
                  (fun kv => kv.2 = 0)).length : ℚ) /
              (((List.lookup pollId g.votes).getD []).length : ℚ))))
          p2
          (100 * (((((List.lookup pollId g.votes).getD []).length -
                (((List.lookup pollId g.votes).getD []).filter
                  (fun kv => kv.2 = 0)).length : ℕ) : ℚ) /
            (((List.lookup pollId g.votes).getD []).length : ℚ))))).getD 0) =
        ((List.lookup p1 g.scores).getD 0) +
          100 * (((((List.lookup pollId g.votes).getD []).filter
                (fun kv => kv.2 = 0)).length : ℚ) /
            (((List.lookup pollId g.votes).getD []).length : ℚ)) := by
      rw [lookup_dictAdd_ne _ p2 p1 _ hne, getD_dictAdd_self,
        getD_dictSetdefault_zero_all, getD_dictSetdefault_zero_all]
    have e2 : ((List.lookup p2 (dictAdd
          (dictAdd (dictSetdefault (dictSetdefault g.scores p1 0) p2 0) p1
            (100 * (((((List.lookup pollId g.votes).getD []).filter
                  (fun kv => kv.2 = 0)).length : ℚ) /
              (((List.lookup pollId g.votes).getD []).length : ℚ))))
          p2
          (100 * (((((List.lookup pollId g.votes).getD []).length -
                (((List.lookup pollId g.votes).getD []).filter
                  (fun kv => kv.2 = 0)).length : ℕ) : ℚ) /
            (((List.lookup pollId g.votes).getD []).length : ℚ))))).getD 0) =
        ((List.lookup p2 g.scores).getD 0) +
          100 * (((((List.lookup pollId g.votes).getD []).length -
                (((List.lookup pollId g.votes).getD []).filter
                  (fun kv => kv.2 = 0)).length : ℕ) : ℚ) /
            (((List.lookup pollId g.votes).getD []).length : ℚ)) := by
      rw [getD_dictAdd_self, lookup_dictAdd_ne _ p1 p2 _ hne',
        getD_dictSetdefault_zero_all, getD_dictSetdefault_zero_all]
    refine ⟨e1, ?_, ?_⟩
    · rw [e2, hv2]
    · rw [e1, e2]
      have hcast : ((((List.lookup pollId g.votes).getD []).length -
            (((List.lookup pollId g.votes).getD []).filter
              (fun kv => kv.2 = 0)).length : ℕ) : ℚ) =
          (((List.lookup pollId g.votes).getD []).length : ℚ) -
            ((((List.lookup pollId g.votes).getD []).filter
              (fun kv => kv.2 = 0)).length : ℚ) := by
        exact Nat.cast_sub hle
      have htne : (((List.lookup pollId g.votes).getD []).length : ℚ) ≠ 0 := by
        exact_mod_cast h0
      rw [hcast]
      field_simp
      ring

/-- Witness for C1: a two-player poll with two recorded binary votes. -/
theorem C1_poll_scoring_witness :
    (List.lookup 9 ({ Game.new 0 with
          pollMap := [(9, (1, 2))],
          votes := [(9, [(5, 0), (6, 1)])] } : Game).pollMap = some (1, 2) ∧
        (1 : Nat) ≠ 2) ∧
      scoreOf (calculate_poll_score { Game.new 0 with
          pollMap := [(9, (1, 2))], votes := [(9, [(5, 0), (6, 1)])] } 9) 1 = 50 ∧
      scoreOf (calculate_poll_score { Game.new 0 with
          pollMap := [(9, (1, 2))], votes := [(9, [(5, 0), (6, 1)])] } 9) 2 = 50 := by
  have h := C1_poll_scoring
    { Game.new 0 with pollMap := [(9, (1, 2))], votes := [(9, [(5, 0), (6, 1)])] }
    9 1 2 (by decide) (by decide)
  have h2 := h.2 (by decide) (by decide)
  refine ⟨⟨by decide, by decide⟩, ?_, ?_⟩
  · rw [h2.1]
    norm_num [scoreOf, Game.new]
  · rw [h2.2.1]
    norm_num [scoreOf, Game.new]

/-- C10: A single poll-scoring operation never decreases any player's
cumulative score (reading an absent entry as 0.0, which is exactly what
`scores.setdefault(uid, 0.0)` establishes), and an absent player's score
reads as 0.0. -/
theorem C10_scoring_monotone (g : Game) (pollId uid : Nat) :
    scoreOf g uid ≤ scoreOf (calculate_poll_score g pollId) uid ∧
      (List.lookup uid g.scores = none → scoreOf g uid = 0) := by
  constructor
  · cases hpoll : List.lookup pollId g.pollMap with
    | none => rw [calc_none_eq g pollId hpoll]
    | some pr =>
        obtain ⟨p1, p2⟩ := pr
        rw [calc_scores_eq g pollId p1 p2 hpoll]
        rw [scoreOf, scoreOf]
        split_ifs with h0
        · calc ((List.lookup uid g.scores).getD 0)
              = ((List.lookup uid (dictSetdefault (dictSetdefault g.scores p1 0) p2 0)).getD 0) := by
                rw [getD_dictSetdefault_zero_all, getD_dictSetdefault_zero_all]
            _ ≤ _ := le_trans (getD_dictAdd_mono _ p1 50 (by norm_num) uid)
                (getD_dictAdd_mono _ p2 50 (by norm_num) uid)
        · have hpos : 0 < ((List.lookup pollId g.votes).getD []).length := by omega
          have hq1 : (0 : ℚ) ≤ 100 * (((((List.lookup pollId g.votes).getD []).filter
                (fun kv => kv.2 = 0)).length : ℚ) /
              (((List.lookup pollId g.votes).getD []).length : ℚ)) := by positivity
          have hq2 : (0 : ℚ) ≤ 100 * (((((List.lookup pollId g.votes).getD []).length -
                (((List.lookup pollId g.votes).getD []).filter
                  (fun kv => kv.2 = 0)).length : ℕ) : ℚ) /
              (((List.lookup pollId g.votes).getD []).length : ℚ)) := by positivity
          calc ((List.lookup uid g.scores).getD 0)
              = ((List.lookup uid (dictSetdefault (dictSetdefault g.scores p1 0) p2 0)).getD 0) := by
                rw [getD_dictSetdefault_zero_all, getD_dictSetdefault_zero_all]
            _ ≤ _ := le_trans (getD_dictAdd_mono _ p1 _ hq1 uid)
                (getD_dictAdd_mono _ p2 _ hq2 uid)
  · intro h
    rw [scoreOf, h]
    rfl

/-- Witness for C10 at a concrete session and poll. -/
theorem C10_scoring_monotone_witness :
    scoreOf { Game.new 0 with pollMap := [(4, (1, 2))] } 1 ≤
        scoreOf (calculate_poll_score { Game.new 0 with pollMap := [(4, (1, 2))] } 4) 1 ∧
      (List.lookup 1 { Game.new 0 with pollMap := [(4, (1, 2))] }.scores = none →
        scoreOf { Game.new 0 with pollMap := [(4, (1, 2))] } 1 = 0) :=
  C10_scoring_monotone { Game.new 0 with pollMap := [(4, (1, 2))] } 4 1

theorem lookup_map_snd {α β γ : Type} [DecidableEq α] (l : List (α × β))
    (f : β → γ) (u : α) :
    List.lookup u (l.map (fun kv => (kv.1, f kv.2))) = (List.lookup u l).map f := by
  induction l with
  | nil => simp
  | cons hd t ih =>
      obtain ⟨a, b⟩ := hd
      by_cases h : u = a
      · simp [List.lookup, h]
      · have hb : (u == a) = false := beq_eq_false_iff_ne.mpr h
        simp [List.lookup, hb, ih]

theorem mark_unanswered_preserves {g : Game} {u i : Nat} {a : String}
    (h : slotOf g u i = some a) : slotOf (mark_unanswered g) u i = some a := by
  unfold slotOf at h ⊢
  simp only [mark_unanswered]
  rw [lookup_map_snd]
  cases hl : List.lookup u g.pendingAnswers with
  | none => rw [hl] at h; simp at h
  | some l =>
      rw [hl] at h
      simp only [Option.getD_some] at h
      simp only [Option.map_some', Option.getD_some]
      by_cases hi : i < l.length
      · rw [List.getD_eq_getElem _ _ hi] at h
        rw [List.getD_eq_getElem _ _ (by simpa using hi), List.getElem_map]
        rw [h]
      · rw [List.getD_eq_default _ _ (by omega)] at h
        exact absurd h (by simp)

theorem mark_unanswered_fills {g : Game} {u : Nat} {l : List (Option String)}
    (hl : List.lookup u g.pendingAnswers = some l) {i : Nat} (hi : i < l.length)
    (h : l.getD i none = none) :
    slotOf (mark_unanswered g) u i = some fallbackAnswer := by
  unfold slotOf
  simp only [mark_unanswered]
  rw [lookup_map_snd, hl]
  simp only [Option.map_some', Option.getD_some]
  rw [List.getD_eq_getElem _ _ (by simpa using hi), List.getElem_map]
  rw [List.getD_eq_getElem _ _ hi] at h
  rw [h]

/-- C3: When the voting phase times a poll out with only a partial
vote set, the session never applies that poll's score delta before the
scoreboard is emitted: the `calculate_poll_score` call in the versus loop
is commented out in the source, and the poll-answer handler only scores a
poll once the vote count reaches the player count.  Concretely: two
players, one matchup, one vote cast — the vote is recorded, the poll is
never marked completed, and the scoreboard reports unchanged scores,
where the claim requires a 100/0 split to have been applied. -/
theorem C3_timed_out_votes_never_scored :
    (start_versus_phase gVersus (fun i => 100 + i) [[(1, 0)]]).1.scores =
        [(1, 0), (2, 0)] ∧
      List.lookup 100 (start_versus_phase gVersus (fun i => 100 + i)
        [[(1, 0)]]).1.votes = some [(1, 0)] ∧
      (start_versus_phase gVersus (fun i => 100 + i) [[(1, 0)]]).1.completedPolls
        = [] ∧
      (start_versus_phase gVersus (fun i => 100 + i) [[(1, 0)]]).2 =
        [Effect.pollOpened 100 1 2, Effect.scoreboardSent [(1, 0), (2, 0)]] ∧
      scoreOf (start_versus_phase gVersus (fun i => 100 + i) [[(1, 0)]]).1 1 ≠ 100 := by
  decide

/-- C4: Scoring an unknown poll is a no-op, as claimed — but a poll
that has already been scored *is* scored again whenever another
`handle_poll_answer` event arrives at full vote count (the source records
the poll in `completed_polls` but never consults that set): after both
players vote on poll `9`, player 1 holds 100 points and the poll is
completed; a subsequent vote change by player 1 re-runs scoring and
raises player 1's total from that single poll to 150. -/
theorem C4_poll_rescored_after_completion :
    calculate_poll_score gPoll 7 = gPoll ∧
      scoreOf (runPollAnswers gPoll [(1, 9, 0), (2, 9, 0)]) 1 = 100 ∧
      9 ∈ (runPollAnswers gPoll [(1, 9, 0), (2, 9, 0)]).completedPolls ∧
      scoreOf (runPollAnswers gPoll [(1, 9, 0), (2, 9, 0), (1, 9, 1)]) 1 = 150 := by
  refine ⟨by decide, ?_, ?_, ?_⟩ <;>
    norm_num [gPoll, Game.new, runPollAnswers, handle_poll_answer,
      calculate_poll_score, dictSet, dictSetdefault, dictAdd, setAdd, scoreOf,
      List.lookup]

/-- C5: `stop_game` only deletes the session from `active_games`; the
round-timer task (whose handle the source never stores) survives and,
when it fires, still sends both reminder waves, backfills, and drives the
versus phase for the ended session: the effect trace after the end
command grows by reminders, a poll, and a scoreboard. -/
theorem C5_timer_survives_stop :
    (stop_game wTimer 7).activeGames = [] ∧
      (stop_game wTimer 7).pendingTimers = [gTimer] ∧
      (fire_timer (stop_game wTimer 7) (fun i => 100 + i)).effects =
        [Effect.groupGameEnded,
          Effect.dmHalfWarning 1, Effect.dmHalfWarning 2,
          Effect.dmLastWarning 1, Effect.dmLastWarning 2,
          Effect.pollOpened 100 1 2,
          Effect.scoreboardSent []] := by
  decide

/-- C6 counterexample: An answer slot holding the genuine answer
`"A"` is overwritten by a second reply from the same player to the same
prompt message: `handle_dm` stores unconditionally. -/
theorem C6_answer_overwrite_counterexample :
    slotOf gDm 7 0 = some "A" ∧
      slotOf (handle_dm gDm 7 100 "B").1 7 0 = some "B" ∧
      (some "A" : Option String) ≠ some "B" := by
  decide

/-- C6 amended: Once a slot holds a genuine answer, the deadline
backfill never alters it; the only operation that can change a slot is a
further reply by the owning player resolving to that same slot index,
which overwrites the stored answer with the new text. -/
theorem C6_slot_change_only_by_owner_reply (g : Game) :
    (∀ u i a, slotOf g u i = some a → slotOf (mark_unanswered g) u i = some a) ∧
      (∀ userId mid text u i,
        slotOf (handle_dm g userId mid text).1 u i ≠ slotOf g u i →
        u = userId ∧
          List.lookup mid ((List.lookup userId g.promptMessages).getD []) = some i ∧
          slotOf (handle_dm g userId mid text).1 u i = some text) := by
  constructor
  · exact fun u i a h => mark_unanswered_preserves h
  · intro userId mid text u i hne
    unfold handle_dm at hne ⊢
    by_cases hp : userId ∈ g.players
    · simp only [if_pos hp] at hne ⊢
      cases hm : List.lookup mid ((List.lookup userId g.promptMessages).getD []) with
      | none =>
          rw [hm] at hne
          exact absurd rfl hne
      | some idx =>
          rw [hm] at hne
          dsimp only at hne ⊢
          by_cases hu : u = userId
          · subst hu
            unfold slotOf at hne ⊢
            simp only [lookup_dictSet_self, Option.getD_some] at hne ⊢
            by_cases hi : i = idx
            · subst hi
              refine ⟨by trivial, by trivial, ?_⟩
              by_cases hlen : i < ((List.lookup u g.pendingAnswers).getD []).length
              · rw [List.getD_eq_getElem?_getD, List.getElem?_set_self hlen]
                rfl
              · rw [List.set_eq_of_length_le (by omega)] at hne
                exact absurd rfl hne
            · rw [List.getD_eq_getElem?_getD, List.getElem?_set_ne (Ne.symm hi),
                ← List.getD_eq_getElem?_getD] at hne
              exact absurd rfl hne
          · unfold slotOf at hne
            simp only [lookup_dictSet_ne _ _ _ _ hu] at hne
            exact absurd rfl hne
    · simp only [if_neg hp] at hne
      exact absurd rfl hne

/-- Witness for the amended C6 at the concrete session `gDm`. -/
theorem C6_slot_change_only_by_owner_reply_witness :
    (slotOf gDm 7 0 = some "A" → slotOf (mark_unanswered gDm) 7 0 = some "A") ∧
      (slotOf (handle_dm gDm 7 100 "B").1 7 0 ≠ slotOf gDm 7 0 →
        (7 : Nat) = 7 ∧
          List.lookup 100 ((List.lookup 7 gDm.promptMessages).getD []) = some 0 ∧
          slotOf (handle_dm gDm 7 100 "B").1 7 0 = some "B") :=
  ⟨(C6_slot_change_only_by_owner_reply gDm).1 7 0 "A",
    (C6_slot_change_only_by_owner_reply gDm).2 7 100 "B" 7 0⟩

/-- C7: When the collection deadline elapses: every still-unset slot
is force-set to the fallback placeholder (and afterwards no slot is
unset), and the transition to the voting phase is unconditional — with no
hypothesis whatsoever on the recorded answers, every built matchup gets
its poll opened (so a matchup containing a placeholder answer still opens
a poll normally). -/
theorem C7_backfill_and_unconditional_voting (g : Game) (pids : Nat → Nat)
    (arrivals : List (List (Nat × Nat))) :
    (∀ u l, List.lookup u g.pendingAnswers = some l → ∀ i, i < l.length →
        l.getD i none = none →
        slotOf (mark_unanswered g) u i = some fallbackAnswer) ∧
      (∀ u l, List.lookup u (mark_unanswered g).pendingAnswers = some l →
        ∀ o ∈ l, o ≠ none) ∧
      (∀ i (hi : i < (build_versus_pairs (mark_unanswered g)).versusPairs.length),
        Effect.pollOpened (pids i)
            ((build_versus_pairs (mark_unanswered g)).versusPairs.get ⟨i, hi⟩).p1
            ((build_versus_pairs (mark_unanswered g)).versusPairs.get ⟨i, hi⟩).p2
          ∈ (round_timer_run g pids arrivals).2) := by
  refine ⟨?_, ?_, ?_⟩
  · intro u l hl i hi h
    exact mark_unanswered_fills hl hi h
  · intro u l hl o ho
    unfold mark_unanswered at hl
    simp only at hl
    rw [lookup_map_snd] at hl
    cases hl0 : List.lookup u g.pendingAnswers with
    | none => rw [hl0] at hl; simp at hl
    | some l0 =>
        rw [hl0] at hl
        simp only [Option.map_some'] at hl
        obtain ⟨x, _, hx⟩ := List.mem_map.mp (Option.some.inj hl ▸ ho)
        cases x <;> simp at hx <;> simp [← hx]
  · intro i hi
    simp only [round_timer_run, start_versus_phase]
    refine List.mem_append_right _ (List.mem_append_left _ ?_)
    have hlen : i < (build_versus_pairs (mark_unanswered g)).versusPairs.enum.length := by
      rw [List.enum_length]; exact hi
    have h1 : (build_versus_pairs (mark_unanswered g)).versusPairs.enum[i] =
        (i, (build_versus_pairs (mark_unanswered g)).versusPairs[i]) :=
      List.getElem_enum _ _ _
    have h2 : (i, (build_versus_pairs (mark_unanswered g)).versusPairs[i]) ∈
        (build_versus_pairs (mark_unanswered g)).versusPairs.enum :=
      h1 ▸ List.getElem_mem hlen
    exact List.mem_map_of_mem _ h2

/-- Witness for C7 at `gTimer` (player 1 unanswered at the deadline): the
slot is backfilled and the matchup's poll still opens. -/
theorem C7_backfill_and_unconditional_voting_witness :
    (List.lookup 1 gTimer.pendingAnswers = some [none] ∧ (0 : Nat) < 1 ∧
        ([none] : List (Option String)).getD 0 none = none) ∧
      slotOf (mark_unanswered gTimer) 1 0 = some fallbackAnswer ∧
      Effect.pollOpened 100 1 2 ∈ (round_timer_run gTimer (fun i => 100 + i) []).2 := by
  refine ⟨⟨by decide, by decide, by decide⟩, ?_, ?_⟩
  · exact (C7_backfill_and_unconditional_voting gTimer (fun i => 100 + i) []).1
      1 [none] (by decide) 0 (by decide) (by decide)
  · exact (C7_backfill_and_unconditional_voting gTimer (fun i => 100 + i) []).2.2
      0 (by decide)

/-- C8 counterexample: The next-round command starts a round on a
one-player session: the round number changes and no rejection notice is
emitted, so "every round-start trigger is rejected for sessions with
fewer than 2 players and session state is unaltered" is false. -/
theorem C8_next_round_unchecked_counterexample :
    gLobby1.players.length < 2 ∧
      (next_round_cmd gLobby1 [5] ["P"] (fun _ _ => 0)).1.round = 1 ∧
      gLobby1.round = 0 ∧
      Effect.noticeNeedTwoPlayers ∉ (next_round_cmd gLobby1 [5] ["P"] (fun _ _ => 0)).2 := by
  decide

/-- C8 amended: The initial round-start command (`/start_game`)
rejects a session with fewer than two players with a group notice and
leaves the session unchanged; the next-round command performs no
player-count check. -/
theorem C8_start_game_requires_two_players (g : Game) (ids : List Nat)
    (prompts : List String) (mids : Nat → Nat → Nat) (h : g.players.length < 2) :
    start_game_cmd g ids prompts mids = (g, [Effect.noticeNeedTwoPlayers]) := by
  unfold start_game_cmd
  rw [if_pos h]

/-- Witness for the amended C8 at the one-player lobby. -/
theorem C8_start_game_requires_two_players_witness :
    gLobby1.players.length < 2 ∧
      start_game_cmd gLobby1 [5] ["P"] (fun _ _ => 0) =
        (gLobby1, [Effect.noticeNeedTwoPlayers]) :=
  ⟨by decide, C8_start_game_requires_two_players gLobby1 [5] ["P"] (fun _ _ => 0)
    (by decide)⟩

theorem mod_shift_lt {n j d : Nat} (hn : 0 < n) : (j + d) % n < n :=
  Nat.mod_lt _ hn

theorem mod_shift_ne {n j d : Nat} (hj : j < n) (hd1 : 1 ≤ d) (hd2 : d < n) :
    (j + d) % n ≠ j := by
  intro he
  have hmod : j % n = (j + d) % n := by rw [Nat.mod_eq_of_lt hj, he]
  have hdvd : n ∣ (j + d) - j := (Nat.modEq_iff_dvd' (Nat.le_add_right j d)).mp hmod
  have hd : (j + d) - j = d := by omega
  rw [hd] at hdvd
  have := Nat.eq_zero_of_dvd_of_lt hdvd hd2
  omega

theorem mod_shift_inj {n j d1 d2 : Nat} (hd1 : d1 < n) (hd2 : d2 < n)
    (he : (j + d1) % n = (j + d2) % n) : d1 = d2 := by
  have h1 : d1 % n = d2 % n := Nat.ModEq.add_left_cancel' j he
  rwa [Nat.mod_eq_of_lt hd1, Nat.mod_eq_of_lt hd2] at h1

theorem getD_inj_of_nodup {ids : List Nat} (h : ids.Nodup) {i j : Nat}
    (hi : i < ids.length) (hj : j < ids.length)
    (he : ids.getD i 0 = ids.getD j 0) : i = j := by
  by_contra hne
  exact getD_ne_of_nodup h hi hj hne he

theorem mod_shift_unshift {n j d : Nat} (hj : j < n) (hd : d ≤ n) :
    ((j + d) % n + (n - d)) % n = j := by
  rw [Nat.mod_add_mod]
  have : j + d + (n - d) = j + n := by omega
  rw [this, Nat.add_mod_right, Nat.mod_eq_of_lt hj]

theorem normPair_eq_or {a b u : Nat}
    (h : (normPair a b).1 = u ∨ (normPair a b).2 = u) : u = a ∨ u = b := by
  rcases normPair_cases a b with ⟨hf, hs⟩ | ⟨hf, hs⟩ <;> rcases h with h | h
  · exact Or.inl (by rw [← h, hf])
  · exact Or.inr (by rw [← h, hs])
  · exact Or.inr (by rw [← h, hf])
  · exact Or.inl (by rw [← h, hs])

theorem normPair_fst_or_snd_eq (a b : Nat) :
    (normPair a b).1 = a ∨ (normPair a b).2 = a := by
  rcases normPair_cases a b with ⟨hf, _⟩ | ⟨_, hs⟩
  · exact Or.inl hf
  · exact Or.inr hs

/-- Every player occupies exactly `effective_m` edges of the circulant
construction: for `n ≥ 3`, positive `em ≤ n - 1` whose oddness forces `n`
even, the vertex at any position `j` is incident to exactly `em.toNat`
edges of `edgeList`. -/
theorem degree_edgeList {ids : List Nat} {em : Int} (hnd : ids.Nodup)
    (hn : 3 ≤ ids.length) (h1 : 1 ≤ em) (hle : em ≤ (ids.length : Int) - 1)
    (hodd : em % 2 = 1 → ids.length % 2 = 0) {j : Nat} (hj : j < ids.length) :
    ((edgeList ids em).filter
        (fun e => e.1 = ids.getD j 0 ∨ e.2 = ids.getD j 0)).length = em.toNat := by
  have hn0 : 0 < ids.length := by omega
  have h2h : 2 * (em / 2).toNat ≤ em.toNat := by omega
  have hkn : em.toNat ≤ ids.length - 1 := by omega
  have h2hn : 2 * (em / 2).toNat < ids.length := by omega
  have hk1 : 1 ≤ em.toNat := by omega
  have hidx : ∀ d : Nat, (j + d) % ids.length < ids.length :=
    fun d => Nat.mod_lt _ hn0
  have hbne : ∀ d : Nat, 1 ≤ d → d < ids.length →
      ids.getD ((j + d) % ids.length) 0 ≠ ids.getD j 0 :=
    fun d hd1 hd2 =>
      getD_ne_of_nodup hnd (hidx d) hj (mod_shift_ne hj hd1 hd2)
  rw [← List.toFinset_card_of_nodup ((nodup_edgeList ids em).filter _)]
  have hTmem : ∀ e : Nat × Nat,
      e ∈ ((edgeList ids em).filter
        (fun e => e.1 = ids.getD j 0 ∨ e.2 = ids.getD j 0)).toFinset ↔
      e ∈ edgeList ids em ∧ (e.1 = ids.getD j 0 ∨ e.2 = ids.getD j 0) := by
    intro e
    simp [List.mem_toFinset, List.mem_filter]
  have hDmem : ∀ d : Nat,
      d ∈ ((Finset.Icc 1 (em / 2).toNat ∪
          Finset.Icc (ids.length - (em / 2).toNat) (ids.length - 1)) ∪
        (if em % 2 = 1 ∧ ids.length % 2 = 0 then ({ids.length / 2} : Finset Nat)
          else ∅)) ↔
      ((1 ≤ d ∧ d ≤ (em / 2).toNat) ∨
          (ids.length - (em / 2).toNat ≤ d ∧ d ≤ ids.length - 1)) ∨
        ((em % 2 = 1 ∧ ids.length % 2 = 0) ∧ d = ids.length / 2) := by
    intro d
    by_cases hmf : em % 2 = 1 ∧ ids.length % 2 = 0
    · simp only [hmf, if_true, Finset.mem_union, Finset.mem_Icc,
        Finset.mem_singleton, and_true, true_and]
    · simp [hmf, Finset.mem_union, Finset.mem_Icc]
  have hDrange : ∀ d : Nat,
      ((1 ≤ d ∧ d ≤ (em / 2).toNat) ∨
          (ids.length - (em / 2).toNat ≤ d ∧ d ≤ ids.length - 1)) ∨
        ((em % 2 = 1 ∧ ids.length % 2 = 0) ∧ d = ids.length / 2) →
      1 ≤ d ∧ d ≤ ids.length - 1 := by
    intro d hd
    rcases hd with (⟨a, b⟩ | ⟨a, b⟩) | ⟨⟨_, hpar⟩, rfl⟩ <;> omega
  have hmap : ∀ d ∈ ((Finset.Icc 1 (em / 2).toNat ∪
          Finset.Icc (ids.length - (em / 2).toNat) (ids.length - 1)) ∪
        (if em % 2 = 1 ∧ ids.length % 2 = 0 then ({ids.length / 2} : Finset Nat)
          else ∅)),
      normPair (ids.getD j 0) (ids.getD ((j + d) % ids.length) 0) ∈
        ((edgeList ids em).filter
          (fun e => e.1 = ids.getD j 0 ∨ e.2 = ids.getD j 0)).toFinset := by
    intro d hd
    rw [hDmem] at hd
    obtain ⟨hd1, hd2⟩ := hDrange d hd
    have hdn : d < ids.length := by omega
    have hne := hbne d hd1 hdn
    rw [hTmem]
    constructor
    · rw [mem_edgeList]
      rcases hd with (⟨ha1, ha2⟩ | ⟨ha1, ha2⟩) | ⟨hmf, hdeq⟩
      · left
        rw [mem_circCandidates]
        exact ⟨d, ⟨ha1, by omega⟩, j, hj, fun hcon => hne hcon.symm, rfl⟩
      · left
        rw [mem_circCandidates]
        refine ⟨ids.length - d, ⟨by omega, by omega⟩, (j + d) % ids.length,
          hidx d, ?_, ?_⟩
        · rw [mod_shift_unshift hj (by omega)]
          exact hne
        · rw [mod_shift_unshift hj (by omega)]
          exact normPair_comm _ _
      · right
        refine ⟨hmf, ?_⟩
        rw [mem_matchCandidates]
        obtain ⟨hm1, hm2⟩ := hmf
        by_cases hjh : j < ids.length / 2
        · refine ⟨j, hjh, ?_⟩
          have hlt : (j + ids.length / 2) % ids.length = j + ids.length / 2 :=
            Nat.mod_eq_of_lt (by omega)
          rw [hdeq, hlt]
        · refine ⟨j - ids.length / 2, by omega, ?_⟩
          have hje : j - ids.length / 2 + ids.length / 2 = j := by omega
          have hmod : (j + ids.length / 2) % ids.length = j - ids.length / 2 := by
            have hsub : j + ids.length / 2 - ids.length = j - ids.length / 2 := by
              omega
            rw [Nat.mod_eq_sub_mod (by omega), hsub, Nat.mod_eq_of_lt (by omega)]
          rw [hdeq, hje, hmod]
          exact normPair_comm _ _
    · exact normPair_fst_or_snd_eq _ _
  have hinj : ∀ d1 ∈ ((Finset.Icc 1 (em / 2).toNat ∪
          Finset.Icc (ids.length - (em / 2).toNat) (ids.length - 1)) ∪
        (if em % 2 = 1 ∧ ids.length % 2 = 0 then ({ids.length / 2} : Finset Nat)
          else ∅)),
      ∀ d2 ∈ ((Finset.Icc 1 (em / 2).toNat ∪
          Finset.Icc (ids.length - (em / 2).toNat) (ids.length - 1)) ∪
        (if em % 2 = 1 ∧ ids.length % 2 = 0 then ({ids.length / 2} : Finset Nat)
          else ∅)),
      normPair (ids.getD j 0) (ids.getD ((j + d1) % ids.length) 0) =
          normPair (ids.getD j 0) (ids.getD ((j + d2) % ids.length) 0) →
        d1 = d2 := by
    intro d1 hd1 d2 hd2 he
    rw [hDmem] at hd1 hd2
    obtain ⟨ha1, ha2⟩ := hDrange d1 hd1
    obtain ⟨hb1, hb2⟩ := hDrange d2 hd2
    have h1 := hbne d1 ha1 (by omega)
    have h2 := hbne d2 hb1 (by omega)
    have hb := normPair_inj_right h1 h2 he
    exact mod_shift_inj (by omega) (by omega)
      (getD_inj_of_nodup hnd (hidx d1) (hidx d2) hb)
  have hsurj : ∀ e ∈ ((edgeList ids em).filter
        (fun e => e.1 = ids.getD j 0 ∨ e.2 = ids.getD j 0)).toFinset,
      ∃ d, ∃ _ : d ∈ ((Finset.Icc 1 (em / 2).toNat ∪
          Finset.Icc (ids.length - (em / 2).toNat) (ids.length - 1)) ∪
        (if em % 2 = 1 ∧ ids.length % 2 = 0 then ({ids.length / 2} : Finset Nat)
          else ∅)),
        normPair (ids.getD j 0) (ids.getD ((j + d) % ids.length) 0) = e := by
    intro e he
    rw [hTmem] at he
    obtain ⟨hmem, hP⟩ := he
    rw [mem_edgeList] at hmem
    rcases hmem with hcirc | ⟨hmf, hmatch⟩
    · rw [mem_circCandidates] at hcirc
      obtain ⟨k, ⟨hc1, hc2⟩, i, hi, hguard, heq⟩ := hcirc
      have hkn2 : k < ids.length := by omega
      have hu_ab : ids.getD j 0 = ids.getD i 0 ∨
          ids.getD j 0 = ids.getD ((i + k) % ids.length) 0 := by
        rw [← heq] at hP
        exact normPair_eq_or hP
      rcases hu_ab with hua | hub
      · have hji : j = i := getD_inj_of_nodup hnd hj hi hua
        refine ⟨k, ?_, ?_⟩
        · rw [hDmem]; left; left; exact ⟨hc1, by omega⟩
        · rw [← heq, hji]
      · have hji : j = (i + k) % ids.length :=
          getD_inj_of_nodup hnd hj (Nat.mod_lt _ hn0) hub
        refine ⟨ids.length - k, ?_, ?_⟩
        · rw [hDmem]; left; right; constructor <;> omega
        · rw [← heq]
          have hback : (j + (ids.length - k)) % ids.length = i := by
            rw [hji, mod_shift_unshift hi (by omega)]
          rw [hback, hub]
          exact normPair_comm _ _
    · rw [mem_matchCandidates] at hmatch
      obtain ⟨i, hi, heq⟩ := hmatch
      have hn2 : ids.length % 2 = 0 := hmf.2
      have hi2 : i + ids.length / 2 < ids.length := by omega
      have hu_ab : ids.getD j 0 = ids.getD i 0 ∨
          ids.getD j 0 = ids.getD (i + ids.length / 2) 0 := by
        rw [← heq] at hP
        exact normPair_eq_or hP
      rcases hu_ab with hua | hub
      · have hji : j = i := getD_inj_of_nodup hnd hj (by omega) hua
        refine ⟨ids.length / 2, ?_, ?_⟩
        · rw [hDmem]; right; exact ⟨hmf, rfl⟩
        · rw [← heq]
          have hlt : (j + ids.length / 2) % ids.length = i + ids.length / 2 := by
            rw [hji]; exact Nat.mod_eq_of_lt (by omega)
          rw [hlt, hua]
      · have hji : j = i + ids.length / 2 := getD_inj_of_nodup hnd hj hi2 hub
        refine ⟨ids.length / 2, ?_, ?_⟩
        · rw [hDmem]; right; exact ⟨hmf, rfl⟩
        · rw [← heq]
          have hmod : (j + ids.length / 2) % ids.length = i := by
            rw [hji]
            have hadd : i + ids.length / 2 + ids.length / 2 = i + ids.length := by
              omega
            rw [hadd, Nat.add_mod_right, Nat.mod_eq_of_lt (by omega)]
          rw [hmod, hub]
          exact normPair_comm _ _
  have hcard := Finset.card_bij
    (fun d _ => normPair (ids.getD j 0) (ids.getD ((j + d) % ids.length) 0))
    hmap hinj hsurj
  rw [← hcard]
  have hd1 : Disjoint (Finset.Icc 1 (em / 2).toNat)
      (Finset.Icc (ids.length - (em / 2).toNat) (ids.length - 1)) := by
    rw [Finset.disjoint_left]
    intro a ha hb
    simp [Finset.mem_Icc] at ha hb
    omega
  have hcard1 : (Finset.Icc 1 (em / 2).toNat ∪
      Finset.Icc (ids.length - (em / 2).toNat) (ids.length - 1)).card =
        2 * (em / 2).toNat := by
    rw [Finset.card_union_of_disjoint hd1, Nat.card_Icc, Nat.card_Icc]
    omega
  by_cases hmf : em % 2 = 1 ∧ ids.length % 2 = 0
  · have hd2 : Disjoint (Finset.Icc 1 (em / 2).toNat ∪
        Finset.Icc (ids.length - (em / 2).toNat) (ids.length - 1))
        ({ids.length / 2} : Finset Nat) := by
      rw [Finset.disjoint_left]
      intro a ha hb
      simp [Finset.mem_union, Finset.mem_Icc] at ha
      simp at hb
      have hpar := hmf.2
      omega
    rw [if_pos hmf, Finset.card_union_of_disjoint hd2, hcard1,
      Finset.card_singleton]
    have hoddk : em % 2 = 1 := hmf.1
    omega
  · rw [if_neg hmf, Finset.union_empty, hcard1]
    have heven : ¬ em % 2 = 1 := fun hcon => hmf ⟨hcon, hodd hcon⟩
    omega

theorem effective_m_spec {n : Nat} {m : Int} (hn : 3 ≤ n) (hm : 1 ≤ m) :
    effective_m n m ≤ (n : Int) - 1 ∧ (effective_m n m % 2 = 1 → n % 2 = 0) := by
  unfold effective_m
  dsimp only
  have hmin : min m ((n : Int) - 1) ≤ (n : Int) - 1 := min_le_right _ _
  have hmin1 : 1 ≤ min m ((n : Int) - 1) := by omega
  split_ifs with hpar
  · refine ⟨by omega, ?_⟩
    intro hodd1
    have hmm := Int.mul_emod (n : Int) (min m ((n : Int) - 1)) 2
    rcases Int.emod_two_eq (n : Int) with he1 | he1 <;>
      rcases Int.emod_two_eq (min m ((n : Int) - 1)) with he2 | he2 <;>
      rw [he1, he2] at hmm <;> omega
  · refine ⟨by omega, ?_⟩
    intro hodd1
    have hmm := Int.mul_emod (n : Int) (min m ((n : Int) - 1)) 2
    rcases Int.emod_two_eq (n : Int) with he1 | he1 <;>
      rw [he1, hodd1] at hmm <;> omega

theorem countP_or_split (l : List (Nat × Nat)) (u : Nat)
    (hne : ∀ e ∈ l, e.1 ≠ e.2) :
    (l.filter (fun e => e.1 = u ∨ e.2 = u)).length =
      (l.filter (fun e => e.1 = u)).length +
        (l.filter (fun e => e.2 = u)).length := by
  induction l with
  | nil => simp
  | cons hd t ih =>
      have hht := hne hd (List.mem_cons_self hd t)
      have iht := ih (fun e he => hne e (List.mem_cons_of_mem hd he))
      rw [List.filter_cons, List.filter_cons, List.filter_cons]
      by_cases h1 : hd.1 = u <;> by_cases h2 : hd.2 = u
      · exact absurd (h1.trans h2.symm) hht
      · rw [if_pos (by simp [h1]), if_pos (by simp [h1]), if_neg (by simp [h2])]
        simp only [List.length_cons]
        omega
      · rw [if_pos (by simp [h2]), if_neg (by simp [h1]), if_pos (by simp [h2])]
        simp only [List.length_cons]
        omega
      · rw [if_neg (by simp [h1, h2]), if_neg (by simp [h1]), if_neg (by simp [h2])]
        exact iht

theorem degree_build_prompt_edges {ids : List Nat} {m : Int} (hnd : ids.Nodup)
    (hn : 2 ≤ ids.length) {u : Nat} (hu : u ∈ ids) :
    ((build_prompt_edges ids m).1.countP (fun e => e.1 = u)) +
      ((build_prompt_edges ids m).1.countP (fun e => e.2 = u)) =
      (build_prompt_edges ids m).2.toNat := by
  by_cases hm : m ≤ 0
  · unfold build_prompt_edges
    rw [if_pos (Or.inr hm)]
    simp
  · have hm1 : 1 ≤ m := by omega
    by_cases h2 : ids.length = 2
    · unfold build_prompt_edges
      rw [if_neg (by push_neg; omega), if_pos h2]
      obtain ⟨a, b, rfl⟩ := List.length_eq_two.mp h2
      have hab : a ≠ b := by
        simp [List.nodup_cons] at hnd
        exact hnd
      have hu2 : u = a ∨ u = b := by simpa using hu
      rcases hu2 with rfl | rfl
      · simp [List.countP_replicate, hab, Ne.symm hab]
      · simp [List.countP_replicate, hab, Ne.symm hab]
    · have h3 : 3 ≤ ids.length := by omega
      unfold build_prompt_edges
      rw [if_neg (by push_neg; omega), if_neg h2]
      dsimp only
      split_ifs with hem
      · simp
      · push_neg at hem
        obtain ⟨hle, hoddn⟩ := effective_m_spec h3 hm1
        obtain ⟨j, hjlt, hjget⟩ := List.mem_iff_getElem.mp hu
        have hju : ids.getD j 0 = u := by
          rw [List.getD_eq_getElem _ _ hjlt, hjget]
        have hdeg := degree_edgeList hnd h3 (by omega) hle hoddn hjlt
        rw [hju] at hdeg
        have hns : ∀ e ∈ edgeList ids (effective_m ids.length m), e.1 ≠ e.2 :=
          fun e he => Nat.ne_of_lt (edgeList_fst_lt_snd hnd (by omega) he)
        rw [List.countP_eq_length_filter, List.countP_eq_length_filter,
          ← countP_or_split _ u hns]
        exact hdeg

theorem lookup_apAppend_self (d : List (Nat × List ((Nat × Nat) × String)))
    (k : Nat) (item : (Nat × Nat) × String) :
    List.lookup k (apAppend d k item) =
      some (((List.lookup k d).getD []) ++ [item]) :=
  lookup_dictSet_self _ _ _

theorem lookup_apAppend_ne (d : List (Nat × List ((Nat × Nat) × String)))
    (k : Nat) (item : (Nat × Nat) × String) (u : Nat) (h : u ≠ k) :
    List.lookup u (apAppend d k item) = List.lookup u d :=
  lookup_dictSet_ne _ _ _ _ h

theorem length_lookup_apAppend (d : List (Nat × List ((Nat × Nat) × String)))
    (k : Nat) (item : (Nat × Nat) × String) (u : Nat) :
    ((List.lookup u (apAppend d k item)).getD []).length =
      ((List.lookup u d).getD []).length + (if u = k then 1 else 0) := by
  by_cases h : u = k
  · subst h
    rw [lookup_apAppend_self]
    simp
  · rw [lookup_apAppend_ne _ _ _ _ h]
    simp [h]

theorem length_lookup_foldl_edgeStep (r : Nat) (ptexts : List String)
    (l : List (Nat × (Nat × Nat))) (d : List (Nat × List ((Nat × Nat) × String)))
    (u : Nat) :
    ((List.lookup u (l.foldl (edgeStep r ptexts) d)).getD []).length =
      ((List.lookup u d).getD []).length +
        l.countP (fun epr => epr.2.1 = u) + l.countP (fun epr => epr.2.2 = u) := by
  induction l generalizing d with
  | nil => simp
  | cons e t ih =>
      rw [List.foldl_cons, ih]
      unfold edgeStep
      rw [length_lookup_apAppend, length_lookup_apAppend]
      rw [List.countP_cons, List.countP_cons]
      by_cases h1 : e.2.1 = u <;> by_cases h2 : e.2.2 = u
      · rw [if_pos h1.symm, if_pos h2.symm, if_pos (by simp [h1]),
          if_pos (by simp [h2])]
        omega
      · rw [if_pos h1.symm, if_neg (fun hc => h2 hc.symm),
          if_pos (by simp [h1]), if_neg (by simp [h2])]
        omega
      · rw [if_neg (fun hc => h1 hc.symm), if_pos h2.symm,
          if_neg (by simp [h1]), if_pos (by simp [h2])]
        omega
      · rw [if_neg (fun hc => h1 hc.symm), if_neg (fun hc => h2 hc.symm),
          if_neg (by simp [h1]), if_neg (by simp [h2])]
        omega

theorem countP_enumFrom_snd {α : Type} (p : α → Bool) (i : Nat) (l : List α) :
    (List.enumFrom i l).countP (fun x => p x.2) = l.countP p := by
  induction l generalizing i with
  | nil => rfl
  | cons a t ih => simp [List.enumFrom, List.countP_cons, ih]

theorem any_lookup_apAppend (d : List (Nat × List ((Nat × Nat) × String)))
    (k : Nat) (item : (Nat × Nat) × String) (u : Nat)
    (p : (Nat × Nat) × String → Bool) :
    ((((List.lookup u (apAppend d k item)).getD []).any p) = true) ↔
      ((((List.lookup u d).getD []).any p) = true ∨ (u = k ∧ p item = true)) := by
  by_cases h : u = k
  · subst h
    rw [lookup_apAppend_self]
    simp [List.any_append]
  · rw [lookup_apAppend_ne _ _ _ _ h]
    simp [h]

theorem any_lookup_foldl_edgeStep (r : Nat) (ptexts : List String)
    (l : List (Nat × (Nat × Nat))) (d : List (Nat × List ((Nat × Nat) × String)))
    (u : Nat) (pid : Nat × Nat) :
    ((((List.lookup u (l.foldl (edgeStep r ptexts) d)).getD []).any
        (fun it => it.1 = pid)) = true) ↔
      ((((List.lookup u d).getD []).any (fun it => it.1 = pid)) = true ∨
        ∃ epr ∈ l, (epr.2.1 = u ∨ epr.2.2 = u) ∧ (r, epr.1) = pid) := by
  induction l generalizing d with
  | nil => simp
  | cons e t ih =>
      rw [List.foldl_cons, ih]
      unfold edgeStep
      rw [any_lookup_apAppend, any_lookup_apAppend]
      simp only [decide_eq_true_eq, List.mem_cons]
      constructor
      · rintro (((hb | ⟨hu, hp⟩) | ⟨hu, hp⟩) | ⟨epr, hepr, hend, hpid⟩)
        · exact Or.inl hb
        · exact Or.inr ⟨e, Or.inl rfl, Or.inl hu.symm, hp⟩
        · exact Or.inr ⟨e, Or.inl rfl, Or.inr hu.symm, hp⟩
        · exact Or.inr ⟨epr, Or.inr hepr, hend, hpid⟩
      · rintro (hb | ⟨epr, (rfl | hepr), hend, hpid⟩)
        · exact Or.inl (Or.inl (Or.inl hb))
        · rcases hend with hu | hu
          · exact Or.inl (Or.inl (Or.inr ⟨hu.symm, hpid⟩))
          · exact Or.inl (Or.inr ⟨hu.symm, hpid⟩)
        · exact Or.inr ⟨epr, hepr, hend, hpid⟩

theorem countP_or_disjoint {α : Type} (l : List α) (p q : α → Prop)
    [DecidablePred p] [DecidablePred q] (h : ∀ x, ¬(p x ∧ q x)) :
    l.countP (fun x => p x ∨ q x) =
      l.countP (fun x => p x) + l.countP (fun x => q x) := by
  induction l with
  | nil => simp
  | cons a t ih =>
      rw [List.countP_cons, List.countP_cons, List.countP_cons, ih]
      by_cases h1 : p a <;> by_cases h2 : q a
      · exact absurd ⟨h1, h2⟩ (h a)
      · simp [h1, h2]; omega
      · simp [h1, h2]; omega
      · simp [h1, h2]

theorem countP_eq_one_of_nodup {l : List Nat} (hnd : l.Nodup) {a : Nat}
    (ha : a ∈ l) : l.countP (fun u => u = a) = 1 := by
  induction l with
  | nil => simp at ha
  | cons x t ih =>
      rcases List.nodup_cons.mp hnd with ⟨hx, ht⟩
      rw [List.countP_cons]
      by_cases hxa : x = a
      · subst hxa
        have h0 : t.countP (fun u => u = x) = 0 := by
          rw [List.countP_eq_zero]
          intro y hy
          simp only [decide_eq_true_eq]
          exact fun hcon => hx (hcon ▸ hy)
        simp [h0]
      · have hat : a ∈ t := by
          rcases List.mem_cons.mp ha with h | h
          · exact absurd h.symm hxa
          · exact h
        rw [ih ht hat]
        simp [hxa]

theorem countP_mem_pair {l : List Nat} (hnd : l.Nodup) {a b : Nat} (hab : a ≠ b)
    (ha : a ∈ l) (hb : b ∈ l) :
    l.countP (fun u => u = a ∨ u = b) = 2 := by
  rw [countP_or_disjoint l (fun u => u = a) (fun u => u = b)
    (fun x => by rintro ⟨rfl, rfl⟩; exact hab rfl)]
  rw [countP_eq_one_of_nodup hnd ha, countP_eq_one_of_nodup hnd hb]

theorem lookup_map_const {β : Type} (l : List Nat) (f : Nat → β) (u : Nat)
    (hu : u ∈ l) :
    List.lookup u (l.map (fun x => (x, f x))) = some (f u) := by
  induction l with
  | nil => simp at hu
  | cons a t ih =>
      by_cases h : u = a
      · subst h
        simp [List.lookup]
      · have hb : (u == a) = false := beq_eq_false_iff_ne.mpr h
        have hut : u ∈ t := by
          rcases List.mem_cons.mp hu with hcon | hcon
          · exact absurd hcon h
          · exact hcon
        simp [List.lookup, hb, ih hut]

theorem foldl_assign_fields (l : List (Nat × (Nat × Nat))) (g : Game)
    (ptexts : List String) :
    (l.foldl (fun gacc epr =>
        { gacc with
          assignedPrompts := edgeStep gacc.round ptexts gacc.assignedPrompts epr }) g) =
      { g with assignedPrompts := l.foldl (edgeStep g.round ptexts) g.assignedPrompts } := by
  induction l generalizing g with
  | nil => rfl
  | cons e t ih =>
      simp only [List.foldl_cons]
      rw [ih]

theorem build_prompt_edges_endpoints {ids : List Nat} {m : Int} (hnd : ids.Nodup)
    (hn : 2 ≤ ids.length) :
    ∀ e ∈ (build_prompt_edges ids m).1, e.1 ≠ e.2 ∧ e.1 ∈ ids ∧ e.2 ∈ ids := by
  intro e he
  by_cases hm : m ≤ 0
  · rw [(C2_matchup_builder_shape ids m hnd).1 (Or.inr hm)] at he
    exact absurd he (List.not_mem_nil e)
  · have hm1 : 1 ≤ m := by omega
    by_cases h2 : ids.length = 2
    · unfold build_prompt_edges at he
      rw [if_neg (by push_neg; omega), if_pos h2] at he
      have heq := List.eq_of_mem_replicate he
      have h0 : ids.getD 0 0 ∈ ids := by
        rw [List.getD_eq_getElem _ _ (by omega)]
        exact List.getElem_mem _
      have h1 : ids.getD 1 0 ∈ ids := by
        rw [List.getD_eq_getElem _ _ (by omega)]
        exact List.getElem_mem _
      have hne01 : ids.getD 0 0 ≠ ids.getD 1 0 :=
        getD_ne_of_nodup hnd (by omega) (by omega) (by omega)
      rw [heq]
      exact ⟨hne01, h0, h1⟩
    · have h3 : 3 ≤ ids.length := by omega
      rcases build_prompt_edges_n3 h3 hm1 with hcase | hcase
      · rw [hcase] at he
        exact absurd he (List.not_mem_nil e)
      · rw [hcase] at he
        refine ⟨Nat.ne_of_lt (edgeList_fst_lt_snd hnd (by omega) he), ?_⟩
        have hmm : ∃ a b, a ∈ ids ∧ b ∈ ids ∧ e = normPair a b := by
          rw [mem_edgeList] at he
          rcases he with hc | ⟨_, hmt⟩
          · rw [mem_circCandidates] at hc
            obtain ⟨k, _, i, hi, _, heq⟩ := hc
            refine ⟨_, _, ?_, ?_, heq.symm⟩
            · rw [List.getD_eq_getElem _ _ hi]
              exact List.getElem_mem _
            · rw [List.getD_eq_getElem _ _ (Nat.mod_lt _ (by omega))]
              exact List.getElem_mem _
          · rw [mem_matchCandidates] at hmt
            obtain ⟨i, hi, heq⟩ := hmt
            refine ⟨_, _, ?_, ?_, heq.symm⟩
            · rw [List.getD_eq_getElem _ _ (by omega)]
              exact List.getElem_mem _
            · rw [List.getD_eq_getElem _ _ (by omega)]
              exact List.getElem_mem _
        obtain ⟨a, b, hma, hmb, heq⟩ := hmm
        rcases normPair_cases a b with ⟨hf, hs⟩ | ⟨hf, hs⟩ <;>
          rw [heq, hf, hs] <;> exact ⟨by assumption, by assumption⟩

theorem lookup_map_none {β : Type} (l : List Nat) (f : Nat → β) (u : Nat)
    (hu : u ∉ l) : List.lookup u (l.map (fun x => (x, f x))) = none := by
  induction l with
  | nil => rfl
  | cons a t ih =>
      have hna : u ≠ a := fun hc => hu (hc ▸ List.mem_cons_self a t)
      have hb : (u == a) = false := beq_eq_false_iff_ne.mpr hna
      simp [List.lookup, hb, ih (fun hc => hu (List.mem_cons_of_mem a hc))]

theorem start_round_state (g : Game) (ids : List Nat) (m : Int)
    (prompts : List String) (mids : Nat → Nat → Nat) :
    (start_round g ids m prompts mids).1.assignedPrompts =
        (build_prompt_edges ids m).1.enum.foldl
          (edgeStep (g.round + 1)
            (if prompts.isEmpty then [noPromptsFallback] else prompts))
          (g.players.map (fun u => (u, []))) ∧
      (start_round g ids m prompts mids).1.pendingAnswers =
        g.players.map (fun u =>
          (u, List.replicate (build_prompt_edges ids m).2.toNat none)) ∧
      (start_round g ids m prompts mids).1.players = g.players := by
  unfold start_round assign_prompts
  dsimp only
  rw [foldl_assign_fields]
  exact ⟨rfl, rfl, rfl⟩

/-- C9: After a round starts with `N ≥ 2` players (`ids` being the
shuffled player order) and requirement `m`: every player's assigned
prompt list has length exactly the effective degree returned by the edge
builder, equal to the length of their answer-slot list, and each assigned
prompt identifier `(round, edge_idx)` occurs in exactly two players'
lists. -/
theorem C9_prompt_assignment (g : Game) (ids : List Nat) (m : Int)
    (prompts : List String) (mids : Nat → Nat → Nat)
    (hperm : g.players.Perm ids) (hnd : ids.Nodup) (hn : 2 ≤ ids.length) :
    (∀ u ∈ g.players,
        ((List.lookup u
            (start_round g ids m prompts mids).1.assignedPrompts).getD []).length =
          (build_prompt_edges ids m).2.toNat ∧
          List.lookup u (start_round g ids m prompts mids).1.pendingAnswers =
            some (List.replicate (build_prompt_edges ids m).2.toNat none)) ∧
      ∀ idx, idx < (build_prompt_edges ids m).1.length →
        g.players.countP (fun u =>
          ((List.lookup u
            (start_round g ids m prompts mids).1.assignedPrompts).getD []).any
              (fun it => it.1 = (g.round + 1, idx))) = 2 := by
  obtain ⟨hassign, hpend, _⟩ := start_round_state g ids m prompts mids
  have hndp : g.players.Nodup := hperm.nodup_iff.mpr hnd
  constructor
  · intro u hu
    constructor
    · rw [hassign, length_lookup_foldl_edgeStep,
        lookup_map_const g.players (fun _ => ([] : List ((Nat × Nat) × String))) u hu]
      have hc1 : (build_prompt_edges ids m).1.enum.countP
            (fun epr => epr.2.1 = u) =
          (build_prompt_edges ids m).1.countP (fun e => e.1 = u) :=
        countP_enumFrom_snd (fun e : Nat × Nat => decide (e.1 = u)) 0 _
      have hc2 : (build_prompt_edges ids m).1.enum.countP
            (fun epr => epr.2.2 = u) =
          (build_prompt_edges ids m).1.countP (fun e => e.2 = u) :=
        countP_enumFrom_snd (fun e : Nat × Nat => decide (e.2 = u)) 0 _
      rw [hc1, hc2]
      have hdeg := degree_build_prompt_edges (m := m) hnd hn (hperm.mem_iff.mp hu)
      simp only [Option.getD_some, List.length_nil]
      omega
    · rw [hpend, lookup_map_const g.players _ u hu]
  · intro idx hidx
    have hchar : ∀ u, (((List.lookup u
          (start_round g ids m prompts mids).1.assignedPrompts).getD []).any
            (fun it => it.1 = (g.round + 1, idx))) = true ↔
        (u = (build_prompt_edges ids m).1[idx].1 ∨
          u = (build_prompt_edges ids m).1[idx].2) := by
      intro u
      rw [hassign, any_lookup_foldl_edgeStep]
      constructor
      · rintro (hbase | ⟨epr, hepr, hend, hpid⟩)
        · by_cases hu : u ∈ g.players
          · rw [lookup_map_const g.players
              (fun _ => ([] : List ((Nat × Nat) × String))) u hu] at hbase
            simp at hbase
          · rw [lookup_map_none g.players
              (fun _ => ([] : List ((Nat × Nat) × String))) u hu] at hbase
            simp at hbase
        · have hpr : epr.1 = idx := by
            have h2 := congrArg Prod.snd hpid
            simpa using h2
          have hm := List.mem_enum_iff_getElem?.mp hepr
          rw [hpr, List.getElem?_eq_getElem hidx] at hm
          have hepr2 : epr.2 = (build_prompt_edges ids m).1[idx] :=
            (Option.some.inj hm).symm
          rcases hend with h | h
          · exact Or.inl (by rw [← h, hepr2])
          · exact Or.inr (by rw [← h, hepr2])
      · rintro (h | h)
        · refine Or.inr ⟨(idx, (build_prompt_edges ids m).1[idx]), ?_, Or.inl h.symm, rfl⟩
          exact List.mem_enum_iff_getElem?.mpr (by rw [List.getElem?_eq_getElem hidx])
        · refine Or.inr ⟨(idx, (build_prompt_edges ids m).1[idx]), ?_, Or.inr h.symm, rfl⟩
          exact List.mem_enum_iff_getElem?.mpr (by rw [List.getElem?_eq_getElem hidx])
    have hcong : g.players.countP (fun u =>
        ((List.lookup u
          (start_round g ids m prompts mids).1.assignedPrompts).getD []).any
            (fun it => it.1 = (g.round + 1, idx))) =
        g.players.countP (fun u =>
          u = (build_prompt_edges ids m).1[idx].1 ∨
            u = (build_prompt_edges ids m).1[idx].2) := by
      apply List.countP_congr
      intro x _
      rw [hchar x]
      simp
    rw [hcong]
    have hep := build_prompt_edges_endpoints hnd hn _ (List.getElem_mem hidx)
    exact countP_mem_pair hndp hep.1 (hperm.mem_iff.mpr hep.2.1)
      (hperm.mem_iff.mpr hep.2.2)

/-- Witness for C9: a two-player lobby, `m = 2` (entering through
`start_round`'s default), round 1, edge 0. -/
theorem C9_prompt_assignment_witness :
    (gLobby2.players.Perm [1, 2] ∧ ([1, 2] : List Nat).Nodup ∧
        2 ≤ ([1, 2] : List Nat).length) ∧
      ((List.lookup 1
          (start_round gLobby2 [1, 2] 2 ["P"] (fun _ _ => 0)).1.assignedPrompts).getD
            []).length = (build_prompt_edges [1, 2] 2).2.toNat ∧
      List.lookup 1 (start_round gLobby2 [1, 2] 2 ["P"] (fun _ _ => 0)).1.pendingAnswers =
        some (List.replicate (build_prompt_edges [1, 2] 2).2.toNat none) ∧
      gLobby2.players.countP (fun u =>
        ((List.lookup u
          (start_round gLobby2 [1, 2] 2 ["P"] (fun _ _ => 0)).1.assignedPrompts).getD
            []).any (fun it => it.1 = (gLobby2.round + 1, 0))) = 2 := by
  have h := C9_prompt_assignment gLobby2 [1, 2] 2 ["P"] (fun _ _ => 0)
    (by decide) (by decide) (by decide)
  exact ⟨⟨by decide, by decide, by decide⟩, (h.1 1 (by decide)).1,
    (h.1 1 (by decide)).2, h.2 0 (by decide)⟩

end TeleQuip
